import Mathlib

/-!
Verification of the plexmix core against its specification.

The tag-generation pipeline (`plexmix/ai/tag_generator.py`) is embedded
directly from the source: Python strings are modelled over `List Char`,
Python's `json.loads` (an external collaborator, strict JSON with the
default acceptance of `NaN`/`Infinity`) is modelled by a fuel-based
recursive-descent parser, and the retry loop of `_generate_batch` is
modelled as a function of an attempt-indexed completion capability that
also records the number of provider calls and the sequence of sleeps.

The entity-store upsert, the sync change predicate and the playlist
deduplication stage are not part of the provided sources (only their
tests are), so they are modelled from the spec, as marked on each
definition.
-/

namespace PlexMix

set_option maxRecDepth 16000

/-! ### Python string primitives (ASCII model) -/

/-- Whitespace characters recognised by Python's `str.strip()` and by the
`\s` class of the `re` module (ASCII fragment). -/
def isPyWs (c : Char) : Bool :=
  c = ' ' || c = '\t' || c = '\n' || c = '\r' || c = '\x0b' || c = '\x0c'

/-- Model of Python `str.strip()` over a character list. -/
def stripList (cs : List Char) : List Char :=
  (((cs.dropWhile isPyWs).reverse).dropWhile isPyWs).reverse

/-- Model of Python `str.lower()` (ASCII fragment). -/
def lowerL (cs : List Char) : List Char :=
  cs.map Char.toLower

/-- Model of `str(x).lower().strip()` applied to a string `s`:
lower-case then strip. -/
def pyNorm (s : String) : String :=
  String.mk (stripList (lowerL s.data))

/-- Does `cs` start with the literal `lit`?  (Python `str.startswith`.) -/
def startsList : List Char → List Char → Bool
  | _, [] => true
  | [], _ :: _ => false
  | c :: cs, d :: ds => c = d && startsList cs ds

/-- Python substring containment `needle in haystack`. -/
def containsSub (hs needle : List Char) : Bool :=
  startsList hs needle ||
    match hs with
    | [] => false
    | _ :: rest => containsSub rest needle

/-- Does a line start with a Markdown code fence, i.e. three backticks?
Models `line.startswith("```")`. -/
def isFenceLine (cs : List Char) : Bool :=
  match cs with
  | '`' :: '`' :: '`' :: _ => true
  | _ => false

/-- Model of `response.split("\n")`. -/
def splitNl : List Char → List (List Char)
  | [] => [[]]
  | c :: rest =>
    if c = '\n' then [] :: splitNl rest
    else
      match splitNl rest with
      | l :: ls => (c :: l) :: ls
      | [] => [[c]]

/-- Model of `"\n".join(lines)`. -/
def joinNl : List (List Char) → List Char
  | [] => []
  | [l] => l
  | l :: l' :: ls => l ++ '\n' :: joinNl (l' :: ls)

/-- The code-fence stripping step of `_parse_tag_response` (source lines
185-187): if the stripped response starts with three backticks, drop every
line that starts with three backticks and re-join the remaining lines. -/
def stripFences (cs : List Char) : List Char :=
  if isFenceLine cs then
    joinNl ((splitNl cs).filter (fun l => !(isFenceLine l)))
  else cs

/-! ### JSON values and a model of Python `json.loads` -/

/-- JSON values as produced by `json.loads`.  Integral numbers become
Python ints (`num`), non-integral numeric literals and the `NaN`/
`Infinity` constants become floats, recorded by their lexeme (`flt`).
Objects keep insertion order with unique keys, as Python dicts do. -/
inductive Json where
  | null : Json
  | bool : Bool → Json
  | num : Int → Json
  | flt : String → Json
  | str : String → Json
  | arr : List Json → Json
  | obj : List (String × Json) → Json

/-- Insert a key into an object the way a Python dict does: replacing the
value at an existing key in place, otherwise appending. -/
def dictInsert (k : String) (v : Json) : List (String × Json) → List (String × Json)
  | [] => [(k, v)]
  | (k', v') :: rest =>
    if k' = k then (k, v) :: rest else (k', v') :: dictInsert k v rest

/-- JSON inter-token whitespace. -/
def isJWs (c : Char) : Bool :=
  c = ' ' || c = '\t' || c = '\n' || c = '\r'

/-- Skip JSON whitespace. -/
def skipJWs (cs : List Char) : List Char :=
  cs.dropWhile isJWs

/-- Hexadecimal digit value, for `\uXXXX` escapes. -/
def hexVal (c : Char) : Option Nat :=
  if '0' ≤ c ∧ c ≤ '9' then some (c.toNat - 48)
  else if 'a' ≤ c ∧ c ≤ 'f' then some (c.toNat - 87)
  else if 'A' ≤ c ∧ c ≤ 'F' then some (c.toNat - 55)
  else none

/-- Parse the body of a JSON string after the opening quote.  Unescaped
control characters are rejected (strict mode of `json.loads`). -/
def parseJStr : Nat → List Char → List Char → Option (String × List Char)
  | 0, _, _ => none
  | _ + 1, _, [] => none
  | _ + 1, acc, '"' :: rest => some (String.mk acc.reverse, rest)
  | _ + 1, _, ['\\'] => none
  | fuel + 1, acc, '\\' :: e :: rest =>
    if e = '"' then parseJStr fuel ('"' :: acc) rest
    else if e = '\\' then parseJStr fuel ('\\' :: acc) rest
    else if e = '/' then parseJStr fuel ('/' :: acc) rest
    else if e = 'b' then parseJStr fuel ('\x08' :: acc) rest
    else if e = 'f' then parseJStr fuel ('\x0c' :: acc) rest
    else if e = 'n' then parseJStr fuel ('\n' :: acc) rest
    else if e = 'r' then parseJStr fuel ('\r' :: acc) rest
    else if e = 't' then parseJStr fuel ('\t' :: acc) rest
    else if e = 'u' then
      match rest with
      | h1 :: h2 :: h3 :: h4 :: rest' =>
        match hexVal h1, hexVal h2, hexVal h3, hexVal h4 with
        | some a, some b, some c, some d =>
          parseJStr fuel (Char.ofNat (((a * 16 + b) * 16 + c) * 16 + d) :: acc) rest'
        | _, _, _, _ => none
      | _ => none
    else none
  | fuel + 1, acc, c :: rest =>
    if c.toNat < 32 then none else parseJStr fuel (c :: acc) rest

/-- Greedily take decimal digits. -/
def takeDigits : List Char → List Char × List Char
  | [] => ([], [])
  | c :: cs =>
    if c.isDigit then
      match takeDigits cs with
      | (d, r) => (c :: d, r)
    else ([], c :: cs)

/-- Decimal value of a digit list. -/
def digitsToNat (ds : List Char) : Nat :=
  ds.foldl (fun n c => n * 10 + (c.toNat - 48)) 0

/-- Lexeme names for the float constants accepted by `json.loads`. -/
def nanLex : String := "nan"

/-- Lexeme for positive infinity. -/
def infLex : String := "inf"

/-- Lexeme for negative infinity. -/
def negInfLex : String := "-inf"

/-- Assemble a parsed number: an `Int` when there is no fraction and no
exponent, otherwise a float recorded by its lexeme. -/
def buildNum (neg : Bool) (intDs fracDs expPart rest : List Char) : Option (Json × List Char) :=
  if fracDs.isEmpty ∧ expPart.isEmpty then
    let n : Int := Int.ofNat (digitsToNat intDs)
    some (Json.num (if neg then -n else n), rest)
  else
    some (Json.flt (String.mk ((if neg then ['-'] else []) ++ intDs ++
      (if fracDs.isEmpty then [] else '.' :: fracDs) ++ expPart)), rest)

/-- Parse an optional exponent part. -/
def goExp (neg : Bool) (intDs fracDs : List Char) : List Char → Option (Json × List Char)
  | [] => buildNum neg intDs fracDs [] []
  | c :: r =>
    if c = 'e' ∨ c = 'E' then
      let (sgn, r2) :=
        match r with
        | '+' :: rr => (['+'], rr)
        | '-' :: rr => (['-'], rr)
        | _ => (([] : List Char), r)
      match takeDigits r2 with
      | ([], _) => none
      | (ed, r3) => buildNum neg intDs fracDs (c :: (sgn ++ ed)) r3
    else buildNum neg intDs fracDs [] (c :: r)

/-- Parse an optional fraction part followed by an optional exponent. -/
def goFrac (neg : Bool) (intDs : List Char) : List Char → Option (Json × List Char)
  | '.' :: r =>
    (match takeDigits r with
     | ([], _) => none
     | (fd, r2) => goExp neg intDs fd r2)
  | cs => goExp neg intDs [] cs

/-- Parse a JSON number (or `-Infinity`), starting at a `-` or a digit. -/
def parseNum (cs : List Char) : Option (Json × List Char) :=
  match cs with
  | '-' :: 'I' :: 'n' :: 'f' :: 'i' :: 'n' :: 'i' :: 't' :: 'y' :: r =>
    some (Json.flt negInfLex, r)
  | _ =>
    let (neg, cs1) :=
      match cs with
      | '-' :: r => (true, r)
      | _ => (false, cs)
    match cs1 with
    | [] => none
    | c :: cs2 =>
      if c = '0' then goFrac neg ['0'] cs2
      else if c.isDigit then
        match takeDigits cs2 with
        | (d, r) => goFrac neg (c :: d) r
      else none

mutual

/-- Recursive-descent JSON value parser (fuelled). -/
def parseValue : Nat → List Char → Option (Json × List Char)
  | 0, _ => none
  | _ + 1, [] => none
  | fuel + 1, c :: rest =>
    if c = '{' then parseObjBody fuel (skipJWs rest)
    else if c = '[' then parseArrBody fuel (skipJWs rest)
    else if c = '"' then
      match parseJStr fuel [] rest with
      | some (s, r) => some (Json.str s, r)
      | none => none
    else if c = 't' then
      match rest with
      | 'r' :: 'u' :: 'e' :: r => some (Json.bool true, r)
      | _ => none
    else if c = 'f' then
      match rest with
      | 'a' :: 'l' :: 's' :: 'e' :: r => some (Json.bool false, r)
      | _ => none
    else if c = 'n' then
      match rest with
      | 'u' :: 'l' :: 'l' :: r => some (Json.null, r)
      | _ => none
    else if c = 'N' then
      match rest with
      | 'a' :: 'N' :: r => some (Json.flt nanLex, r)
      | _ => none
    else if c = 'I' then
      match rest with
      | 'n' :: 'f' :: 'i' :: 'n' :: 'i' :: 't' :: 'y' :: r => some (Json.flt infLex, r)
      | _ => none
    else if c = '-' ∨ c.isDigit then parseNum (c :: rest)
    else none

/-- Parse an object body after the opening brace (whitespace skipped). -/
def parseObjBody : Nat → List Char → Option (Json × List Char)
  | 0, _ => none
  | fuel + 1, cs =>
    match cs with
    | '}' :: rest => some (Json.obj [], rest)
    | _ => parseMembers fuel [] cs

/-- Parse one or more `"key": value` members; strict JSON, so after a
comma a further key is required (no trailing commas). -/
def parseMembers : Nat → List (String × Json) → List Char → Option (Json × List Char)
  | 0, _, _ => none
  | fuel + 1, acc, cs =>
    match cs with
    | '"' :: rest =>
      (match parseJStr fuel [] rest with
       | some (k, r1) =>
         (match skipJWs r1 with
          | ':' :: r2 =>
            (match parseValue fuel (skipJWs r2) with
             | some (v, r3) =>
               (match skipJWs r3 with
                | ',' :: r4 => parseMembers fuel (dictInsert k v acc) (skipJWs r4)
                | '}' :: r4 => some (Json.obj (dictInsert k v acc), r4)
                | _ => none)
             | none => none)
          | _ => none)
       | none => none)
    | _ => none

/-- Parse an array body after the opening bracket (whitespace skipped). -/
def parseArrBody : Nat → List Char → Option (Json × List Char)
  | 0, _ => none
  | fuel + 1, cs =>
    match cs with
    | ']' :: rest => some (Json.arr [], rest)
    | _ => parseElems fuel [] cs

/-- Parse one or more array elements; strict JSON, so after a comma a
further value is required (no trailing commas). -/
def parseElems : Nat → List Json → List Char → Option (Json × List Char)
  | 0, _, _ => none
  | fuel + 1, acc, cs =>
    match parseValue fuel cs with
    | some (v, r1) =>
      (match skipJWs r1 with
       | ',' :: r2 => parseElems fuel (acc ++ [v]) (skipJWs r2)
       | ']' :: r2 => some (Json.arr (acc ++ [v]), r2)
       | _ => none)
    | none => none

end

/-- Model of Python `json.loads`: parse one value surrounded by optional
whitespace; any trailing data is an error. -/
def loadsL (cs : List Char) : Option Json :=
  match parseValue (cs.length * 4 + 16) (skipJWs cs) with
  | some (j, rest) => if (skipJWs rest).isEmpty then some j else none
  | none => none

/-! ### Python value semantics used by `_parse_tag_response` -/

mutual

/-- Best-effort model of Python `repr` on values decoded from JSON;
exact on the values the tag parser actually meets (`None`, bools, ints,
simple float lexemes, strings used via `str`). -/
def pyRepr : Json → String
  | Json.null => "None"
  | Json.bool true => "True"
  | Json.bool false => "False"
  | Json.num n => toString n
  | Json.flt raw => raw
  | Json.str s => String.mk ('\'' :: s.data ++ ['\''])
  | Json.arr l => String.mk ('[' :: (pyReprList l).data ++ [']'])
  | Json.obj f => String.mk ('{' :: (pyReprFields f).data ++ ['}'])

/-- Comma-joined reprs of array elements. -/
def pyReprList : List Json → String
  | [] => ""
  | [x] => pyRepr x
  | x :: y :: rest => pyRepr x ++ ", " ++ pyReprList (y :: rest)

/-- Comma-joined reprs of object members. -/
def pyReprFields : List (String × Json) → String
  | [] => ""
  | [(k, v)] => String.mk ('\'' :: k.data ++ '\'' :: ':' :: ' ' :: (pyRepr v).data)
  | (k, v) :: y :: rest =>
    String.mk ('\'' :: k.data ++ '\'' :: ':' :: ' ' :: (pyRepr v).data) ++ ", " ++
      pyReprFields (y :: rest)

end

/-- Model of Python `str(x)` on values decoded from JSON. -/
def pyStr : Json → String
  | Json.str s => s
  | v => pyRepr v

/-- Is a float lexeme the number zero?  (All mantissa digits `0`; the
`nan`/`inf` lexemes have no digits but are truthy and are special-cased
in `pyTruthy`.) -/
def fltIsZero (raw : String) : Bool :=
  ((raw.data.takeWhile (fun c => !(c = 'e' || c = 'E'))).filter Char.isDigit).all
    (fun c => c = '0')

/-- Model of Python truthiness on values decoded from JSON. -/
def pyTruthy : Json → Bool
  | Json.null => false
  | Json.bool b => b
  | Json.num n => !(n == 0)
  | Json.flt raw =>
    if raw = nanLex ∨ raw = infLex ∨ raw = negInfLex then true else !(fltIsZero raw)
  | Json.str s => !(s == "")
  | Json.arr l => !l.isEmpty
  | Json.obj f => !f.isEmpty

/-! ### The tag generator (`plexmix/ai/tag_generator.py`) -/

/-- An input track as consumed by `TagGenerator._parse_tag_response`;
only the `id` key of the track dict is consulted there. -/
structure TrackIn where
  id : Nat
deriving DecidableEq, Repr

/-- The per-track value built by `_parse_tag_response`: the `tags` and
`environments` lists and the `primary_instrument` entry (which the code
stores as a raw Python value: `None`, a kept falsy value, or a
lower-cased stripped string). -/
structure TagResult where
  tags : List String
  environments : List String
  primary_instrument : Json

/-- The empty per-track result `{tags: [], environments: [],
primary_instrument: None}`. -/
def emptyTagResult : TagResult :=
  ⟨[], [], Json.null⟩

/-- Key of the tags field. -/
def tagsKey : String := "tags"

/-- Key of the environments field. -/
def envsKey : String := "environments"

/-- Key of the primary-instrument field. -/
def piKey : String := "primary_instrument"

/-- The per-track branch of `_parse_tag_response` (source lines 199-231):
a dict value yields the three processed fields, a legacy bare array is
treated as the tags list, anything else yields the empty result. -/
def tagResultOfData (data : Json) : TagResult :=
  match data with
  | Json.obj d =>
    let tags :=
      match List.lookup tagsKey d with
      | some (Json.arr l) => (l.take 5).map (fun x => pyNorm (pyStr x))
      | some _ => []
      | none => []
    let environments :=
      match List.lookup envsKey d with
      | some (Json.arr l) => (l.take 3).map (fun x => pyNorm (pyStr x))
      | some (Json.str s) => [pyNorm s]
      | some _ => []
      | none => []
    let primary_instrument :=
      match List.lookup piKey d with
      | none => Json.null
      | some v => if pyTruthy v then Json.str (pyNorm (pyStr v)) else v
    ⟨tags, environments, primary_instrument⟩
  | Json.arr l => ⟨(l.take 5).map (fun x => pyNorm (pyStr x)), [], Json.null⟩
  | _ => emptyTagResult

/-- The all-empty mapping `{track['id']: {'tags': [], 'environments': [],
'primary_instrument': None} for track in tracks}`. -/
def emptyMapping (tracks : List TrackIn) : List (Nat × TagResult) :=
  tracks.map (fun t => (t.id, emptyTagResult))

/-- `TagGenerator._parse_tag_response` (source lines 177-242): strip,
drop code-fence lines, `json.loads`; on a parsed object give every input
track its processed entry (empty when its id is absent); any parse
failure — and any non-object top level, where the subsequent indexing
raises and is caught — degrades to the all-empty mapping. -/
def parseTagResponse (response : String) (tracks : List TrackIn) : List (Nat × TagResult) :=
  match loadsL (stripFences (stripList response.data)) with
  | some (Json.obj fields) =>
    tracks.map (fun t =>
      match List.lookup (toString t.id) fields with
      | some data => (t.id, tagResultOfData data)
      | none => (t.id, emptyTagResult))
  | some _ => emptyMapping tracks
  | none => emptyMapping tracks

/-! ### Retry-delay extraction (`_extract_retry_delay`) -/

/-- Match a literal at the head of `cs`, returning the rest. -/
def dropLit : List Char → List Char → Option (List Char)
  | cs, [] => some cs
  | [], _ :: _ => none
  | c :: cs, d :: ds => if c = d then dropLit cs ds else none

/-- Match a literal case-insensitively at the head of `cs`. -/
def dropLitCI : List Char → List Char → Option (List Char)
  | cs, [] => some cs
  | [], _ :: _ => none
  | c :: cs, d :: ds => if c.toLower = d.toLower then dropLitCI cs ds else none

/-- First pattern literal. -/
def retryDelayLit : String := "retry_delay"

/-- Seconds-field literal of the first pattern. -/
def secondsLit : String := "seconds:"

/-- Second pattern literal (matched case-insensitively). -/
def retryAfterLit : String := "Retry-After:"

/-- Try the structured pattern
`retry_delay\s*\{\s*seconds:\s*(\d+)` at the current position. -/
def tryStructured (cs : List Char) : Option Nat :=
  match dropLit cs retryDelayLit.data with
  | none => none
  | some r1 =>
    match (r1.dropWhile isPyWs) with
    | '{' :: r2 =>
      (match dropLit (r2.dropWhile isPyWs) secondsLit.data with
       | none => none
       | some r3 =>
         match takeDigits (r3.dropWhile isPyWs) with
         | ([], _) => none
         | (ds, _) => some (digitsToNat ds))
    | _ => none

/-- Try the header-echo pattern `Retry-After:\s*(\d+)` (ignorecase) at
the current position. -/
def tryHeader (cs : List Char) : Option Nat :=
  match dropLitCI cs retryAfterLit.data with
  | none => none
  | some r1 =>
    match takeDigits (r1.dropWhile isPyWs) with
    | ([], _) => none
    | (ds, _) => some (digitsToNat ds)

/-- `re.search`: try a position matcher at every position, left to
right. -/
def searchWith (f : List Char → Option Nat) : List Char → Option Nat
  | [] => f []
  | c :: rest =>
    match f (c :: rest) with
    | some n => some n
    | none => searchWith f rest

/-- `TagGenerator._extract_retry_delay` (source lines 72-81): the
structured pattern first, then the Retry-After echo; the matched digit
group as a float. -/
def extractRetryDelay (e : String) : Option ℚ :=
  match searchWith tryStructured e.data with
  | some n => some (n : ℚ)
  | none =>
    match searchWith tryHeader e.data with
    | some n => some (n : ℚ)
    | none => none

/-! ### Transient-error classification and the retry loop -/

/-- Rate-limit signature literal. -/
def lit429 : String := "429"

/-- Quota signature literal. -/
def litQuota : String := "quota"

/-- Rate signature literal. -/
def litRate : String := "rate"

/-- Gateway-timeout signature literal. -/
def lit504 : String := "504"

/-- Timeout signature literal. -/
def litTimeoutW : String := "timeout"

/-- Timed-out signature literal. -/
def litTimedOut : String := "timed out"

/-- Server-error signature literal. -/
def lit500 : String := "500"

/-- Bad-gateway signature literal. -/
def lit502 : String := "502"

/-- Service-unavailable signature literal. -/
def lit503 : String := "503"

/-- `is_rate_limit` (source line 41). -/
def isRateLimitErr (cs : List Char) : Bool :=
  containsSub cs lit429.data || containsSub (lowerL cs) litQuota.data ||
    containsSub (lowerL cs) litRate.data

/-- `is_timeout` (source line 42). -/
def isTimeoutErr (cs : List Char) : Bool :=
  containsSub cs lit504.data || containsSub (lowerL cs) litTimeoutW.data ||
    containsSub (lowerL cs) litTimedOut.data

/-- `is_server_error` (source line 43). -/
def isServerErr (cs : List Char) : Bool :=
  containsSub cs lit500.data || containsSub cs lit502.data || containsSub cs lit503.data

/-- The retryability test of `_generate_batch` (source line 45). -/
def isTransient (e : String) : Bool :=
  isRateLimitErr e.data || isTimeoutErr e.data || isServerErr e.data

/-- The sleep chosen before retrying after `attempt` failed with error
text `e` (source lines 47-61): the server-suggested delay times the 1.5
backoff multiplier when one is extracted and truthy (Python
`if retry_after:`, so a suggested `0` is falsy and falls through),
otherwise `base_delay * 2 ** attempt` with `base_delay = 2`. -/
def retryDelayFor (attempt : Nat) (e : String) : ℚ :=
  match extractRetryDelay e with
  | some r => if r ≠ 0 then r * (3 / 2) else 2 * 2 ^ attempt
  | none => 2 * 2 ^ attempt

/-- The observable outcome of `_generate_batch`: the returned mapping,
how many times the completion capability was invoked, and the successive
`time.sleep` durations. -/
structure BatchOutcome where
  result : List (Nat × TagResult)
  calls : Nat
  sleeps : List ℚ

/-- The retry loop of `_generate_batch` (source lines 32-70), with the
completion capability modelled as a map from attempt index to either an
error text (a raised exception) or a response text.  `remaining` is
`max_retries - attempt`; the `remaining = 0` case is the fall-through
return after the loop (source line 70). -/
def generateBatchGo (cap : Nat → Except String String) (tracks : List TrackIn) :
    Nat → Nat → Nat → List ℚ → BatchOutcome
  | 0, _, calls, sleeps => ⟨emptyMapping tracks, calls, sleeps⟩
  | r + 1, attempt, calls, sleeps =>
    match cap attempt with
    | Except.ok response => ⟨parseTagResponse response tracks, calls + 1, sleeps⟩
    | Except.error e =>
      if isTransient e then
        if 0 < r then
          generateBatchGo cap tracks r (attempt + 1) (calls + 1)
            (sleeps ++ [retryDelayFor attempt e])
        else ⟨emptyMapping tracks, calls + 1, sleeps⟩
      else ⟨emptyMapping tracks, calls + 1, sleeps⟩

/-- `TagGenerator._generate_batch` with `max_retries = 5`. -/
def generateBatch (cap : Nat → Except String String) (tracks : List TrackIn) : BatchOutcome :=
  generateBatchGo cap tracks 5 0 0 []

/-! ### Entity store (modelled from the spec) -/

/-- Modelled from the spec: the persisted Track row of the Entity Store
(`plexmix/database/models.py` and `sqlite_manager.py` are not among the
provided sources; fields follow §3 of the spec and the repository's
database tests). -/
structure TrackRow where
  plex_key : String
  title : String
  artist_id : Nat
  album_id : Nat
  duration_ms : Nat
  genre : Option String
  year : Option Nat
  rating : Option ℚ
  play_count : Nat
  tags : Option String
  environments : Option String
  instruments : Option String
deriving DecidableEq, Repr

/-- Modelled from the spec: the keep-if-incoming-empty field policy for
enrichment fields (§9, sticky-merge upsert). -/
def keepIfEmpty (existing incoming : Option String) : Option String :=
  match incoming with
  | none => existing
  | some s => if s = "" then existing else some s

/-- Modelled from the spec: `merge(existing_row, incoming_row,
field_policy)` — enrichment fields are keep-if-incoming-empty, every
other field is overwrite-always (§3 sticky-enrichment invariant, §9). -/
def mergeTrack (existing incoming : TrackRow) : TrackRow :=
  { incoming with
    tags := keepIfEmpty existing.tags incoming.tags
    environments := keepIfEmpty existing.environments incoming.environments
    instruments := keepIfEmpty existing.instruments incoming.instruments }

/-- Modelled from the spec: the track table of the Entity Store, rows
keyed by internal id, plus the next fresh id. -/
structure Store where
  rows : List (Nat × TrackRow)
  nextId : Nat

/-- Modelled from the spec: update-in-place of the first row whose
external key matches, returning its internal id; `none` when the key is
absent. -/
def upsertGo : List (Nat × TrackRow) → TrackRow → Option (Nat × List (Nat × TrackRow))
  | [], _ => none
  | (i, r) :: rest, t =>
    if r.plex_key == t.plex_key then some (i, (i, mergeTrack r t) :: rest)
    else
      match upsertGo rest t with
      | some (j, rest') => some (j, (i, r) :: rest')
      | none => none

/-- Modelled from the spec: upsert-with-merge keyed by the external key
(§3): an existing row keeps its internal id and is merged under the
sticky-enrichment policy; a new key is inserted under a fresh id. -/
def upsertTrack (s : Store) (t : TrackRow) : Nat × Store :=
  match upsertGo s.rows t with
  | some (i, rows') => (i, ⟨rows', s.nextId⟩)
  | none => (s.nextId, ⟨s.rows ++ [(s.nextId, t)], s.nextId + 1⟩)

/-- Modelled from the spec: lookup of a stored row by internal id. -/
def getById (rows : List (Nat × TrackRow)) (i : Nat) : Option TrackRow :=
  (rows.find? (fun p => p.1 == i)).map Prod.snd

/-- Modelled from the spec: the Sync Engine's change predicate
`_track_needs_update` — true iff any of rating, play count, genre, year,
duration, title differ (§4.1 step 3; `plexmix/plex/sync.py` is not among
the provided sources). -/
def trackNeedsUpdate (existing incoming : TrackRow) : Bool :=
  (existing.rating != incoming.rating) || (existing.play_count != incoming.play_count) ||
    (existing.genre != incoming.genre) || (existing.year != incoming.year) ||
    (existing.duration_ms != incoming.duration_ms) || (existing.title != incoming.title)

/-! ### Playlist deduplication (modelled from the spec) -/

/-- Modelled from the spec: a candidate track descriptor as it reaches
the Playlist Generator's deduplication step (§4.3 step 4;
`plexmix/playlist/generator.py` is not among the provided sources). -/
structure CandidateTrack where
  id : Nat
  title : String
  artist : String
deriving DecidableEq, Repr

/-- Modelled from the spec: the normalized (title, artist-name) pair
used to detect the same recording on multiple releases. -/
def normPair (c : CandidateTrack) : String × String :=
  (pyNorm c.title, pyNorm c.artist)

/-- Modelled from the spec: one left-to-right pass dropping any
candidate whose normalized pair was already seen. -/
def dedupGo (seen : List (String × String)) : List CandidateTrack → List CandidateTrack
  | [] => []
  | c :: cs =>
    if normPair c ∈ seen then dedupGo seen cs
    else c :: dedupGo (normPair c :: seen) cs

/-- Modelled from the spec: §4.3 step 4, deduplication of the ordered
playlist result, first occurrences kept in place. -/
def dedupCandidates (l : List CandidateTrack) : List CandidateTrack :=
  dedupGo [] l

/-! ### Helper lemmas -/

/-- One unfolding step of the retry loop. -/
theorem generateBatchGo_step (cap : Nat → Except String String) (tracks : List TrackIn)
    (r attempt calls : Nat) (sleeps : List ℚ) :
    generateBatchGo cap tracks (r + 1) attempt calls sleeps =
      match cap attempt with
      | Except.ok response => ⟨parseTagResponse response tracks, calls + 1, sleeps⟩
      | Except.error e =>
        if isTransient e then
          if 0 < r then
            generateBatchGo cap tracks r (attempt + 1) (calls + 1)
              (sleeps ++ [retryDelayFor attempt e])
          else ⟨emptyMapping tracks, calls + 1, sleeps⟩
        else ⟨emptyMapping tracks, calls + 1, sleeps⟩ := rfl

/-! ### C1: non-transient errors and unparseable responses degrade to the
all-empty mapping -/

/-- C1.  For every batch of tracks and every completion capability, when
the first completion call raises a non-transient error, or returns a
response that is not valid JSON (after stripping and fence removal), the
batch call returns the mapping assigning the empty tag result to every
track id in the batch.  `_generate_batch` is embedded as a total
function, so no exception can escape it. -/
theorem c1_degrades_to_empty
    (cap : Nat → Except String String) (tracks : List TrackIn)
    (h : (∃ e, cap 0 = Except.error e ∧ isTransient e = false) ∨
         (∃ s, cap 0 = Except.ok s ∧ loadsL (stripFences (stripList s.data)) = none)) :
    (generateBatch cap tracks).result = emptyMapping tracks := by
  rcases h with ⟨e, hc, ht⟩ | ⟨s, hc, hp⟩
  · show (generateBatchGo cap tracks (4 + 1) 0 0 []).result = emptyMapping tracks
    rw [generateBatchGo_step, hc]
    simp [ht]
  · show (generateBatchGo cap tracks (4 + 1) 0 0 []).result = emptyMapping tracks
    rw [generateBatchGo_step, hc]
    simp [parseTagResponse, hp, emptyMapping]

/-- A non-transient error text: no rate/quota/429, timeout/504 or 5xx
signature occurs in it. -/
def errPlain : String := "invalid api key"

/-- The capability that always fails with a non-transient error. -/
def capPlain : Nat → Except String String := fun _ => Except.error errPlain

/-- Witness for C1 at a concrete capability and batch. -/
theorem c1_witness :
    (generateBatch capPlain [⟨1⟩, ⟨2⟩]).result = emptyMapping [⟨1⟩, ⟨2⟩] :=
  c1_degrades_to_empty capPlain [⟨1⟩, ⟨2⟩] (Or.inl ⟨errPlain, rfl, by decide⟩)

/-! ### C2: retry exhaustion under transient errors -/

/-- C2 (amended).  A capability that fails every attempt with a
transient (rate-limit/timeout/5xx) error is invoked exactly 5 times; the
4 sleeps between consecutive attempts are `2 * 2 ^ attempt`, except when
the error text carries a nonzero server-suggested delay, which is used
times 1.5 (a suggested delay of 0 is falsy in the source's
`if retry_after:` and falls back to the exponential delay); the returned
mapping is empty for every track in the batch. -/
theorem c2_retry_exhaustion
    (cap : Nat → Except String String) (tracks : List TrackIn) (errs : Nat → String)
    (hcap : ∀ a, a < 5 → cap a = Except.error (errs a))
    (htrans : ∀ a, a < 5 → isTransient (errs a) = true) :
    generateBatch cap tracks =
      ⟨emptyMapping tracks, 5,
        (List.range 4).map (fun a =>
          match extractRetryDelay (errs a) with
          | some r => if r ≠ 0 then r * (3 / 2) else 2 * 2 ^ a
          | none => (2 : ℚ) * 2 ^ a)⟩ := by
  have h0 := hcap 0 (by omega)
  have h1 := hcap 1 (by omega)
  have h2 := hcap 2 (by omega)
  have h3 := hcap 3 (by omega)
  have h4 := hcap 4 (by omega)
  have t0 := htrans 0 (by omega)
  have t1 := htrans 1 (by omega)
  have t2 := htrans 2 (by omega)
  have t3 := htrans 3 (by omega)
  have t4 := htrans 4 (by omega)
  show generateBatchGo cap tracks (4 + 1) 0 0 [] = _
  rw [generateBatchGo_step, h0]
  simp only [t0, if_true, show ((0 : Nat) < 4) = True by simp]
  rw [show (4 : Nat) = 3 + 1 from rfl, generateBatchGo_step, h1]
  simp only [t1, if_true, show ((0 : Nat) < 3) = True by simp]
  rw [show (3 : Nat) = 2 + 1 from rfl, generateBatchGo_step, h2]
  simp only [t2, if_true, show ((0 : Nat) < 2) = True by simp]
  rw [show (2 : Nat) = 1 + 1 from rfl, generateBatchGo_step, h3]
  simp only [t3, if_true, show ((0 : Nat) < 1) = True by simp]
  rw [show (1 : Nat) = 0 + 1 from rfl, generateBatchGo_step, h4]
  simp only [t4, if_true, lt_irrefl, if_false]
  simp [retryDelayFor, List.range_succ]

/-- A rate-limit error carrying a server-suggested delay of zero
seconds. -/
def errZero : String := "429 rate limit, Retry-After: 0"

/-- The capability that always fails with `errZero`. -/
def capZero : Nat → Except String String := fun _ => Except.error errZero

/-- Counterexample to C2 as stated: `errZero` carries a server-suggested
delay (0 seconds), so the claim requires sleeps of `0 * 1.5 = 0`; the
code treats the extracted `0.0` as falsy (`if retry_after:`) and sleeps
the exponential delays `2, 4, 8, 16` instead. -/
theorem c2_counterexample :
    extractRetryDelay errZero = some 0 ∧
    (generateBatch capZero [⟨1⟩]).sleeps = [2, 4, 8, 16] ∧
    ([2, 4, 8, 16] : List ℚ) ≠ [0 * (3 / 2), 0 * (3 / 2), 0 * (3 / 2), 0 * (3 / 2)] := by
  refine ⟨?_, ?_, by norm_num⟩
  · rw [extractRetryDelay,
      show searchWith tryStructured errZero.data = none from rfl,
      show searchWith tryHeader errZero.data = some 0 from rfl]
    norm_num
  · show (generateBatchGo capZero [⟨1⟩] (4 + 1) 0 0 []).sleeps = _
    have hz : isTransient errZero = true := by decide
    have hd : ∀ a : Nat, retryDelayFor a errZero = 2 * 2 ^ a := by
      intro a
      rw [retryDelayFor,
        show extractRetryDelay errZero = some ((0 : Nat) : ℚ) from rfl]
      norm_num
    rw [generateBatchGo_step]
    simp only [capZero, hz, if_true, show ((0 : Nat) < 4) = True by simp]
    rw [show (4 : Nat) = 3 + 1 from rfl, generateBatchGo_step]
    simp only [capZero, hz, if_true, show ((0 : Nat) < 3) = True by simp]
    rw [show (3 : Nat) = 2 + 1 from rfl, generateBatchGo_step]
    simp only [capZero, hz, if_true, show ((0 : Nat) < 2) = True by simp]
    rw [show (2 : Nat) = 1 + 1 from rfl, generateBatchGo_step]
    simp only [capZero, hz, if_true, show ((0 : Nat) < 1) = True by simp]
    rw [show (1 : Nat) = 0 + 1 from rfl, generateBatchGo_step]
    simp only [capZero, hz, if_true, lt_irrefl, if_false]
    simp [hd]
    norm_num

/-- A plain rate-limit error with no suggested delay. -/
def err429 : String := "429 Too Many Requests"

/-! ### Normalization facts about parsed tag strings -/

/-- A string containing no uppercase ASCII letter — the observable
meaning of "case-folded to lowercase" in the ASCII model. -/
def isLowercased (s : String) : Prop :=
  ∀ c ∈ s.data, ¬ (65 ≤ c.toNat ∧ c.toNat ≤ 90)

/-- A string with no leading and no trailing whitespace — the observable
meaning of "trimmed". -/
def isTrimmed (s : String) : Prop :=
  (∀ c, s.data.head? = some c → isPyWs c = false) ∧
  (∀ c, s.data.getLast? = some c → isPyWs c = false)

/-- `Char.ofNat` yields either the requested code point or the null
character. -/
theorem toNat_ofNat_or (m : Nat) : (Char.ofNat m).toNat = m ∨ (Char.ofNat m).toNat = 0 := by
  rw [Char.ofNat]
  split
  · left
    rfl
  · right
    rfl

/-- `Char.toLower` never returns an uppercase ASCII letter. -/
theorem toLower_not_upper (c : Char) :
    ¬ (65 ≤ (Char.toLower c).toNat ∧ (Char.toLower c).toNat ≤ 90) := by
  rw [Char.toLower]
  split
  · rcases toNat_ofNat_or (c.toNat + 32) with h | h <;> rw [h] <;> omega
  · omega

/-- Members of a stripped list are members of the list. -/
theorem mem_stripList {c : Char} {l : List Char} (h : c ∈ stripList l) : c ∈ l := by
  rw [stripList] at h
  rw [List.mem_reverse] at h
  have h2 := (List.dropWhile_sublist isPyWs).mem h
  rw [List.mem_reverse] at h2
  exact (List.dropWhile_sublist isPyWs).mem h2

/-- The head of a `dropWhile` fails the predicate. -/
theorem head?_dropWhile {p : Char → Bool} {l : List Char} :
    ∀ c, (l.dropWhile p).head? = some c → p c = false := by
  induction l with
  | nil => simp
  | cons a t ih =>
    intro c h
    by_cases hp : p a = true
    · rw [List.dropWhile_cons_of_pos hp] at h
      exact ih c h
    · rw [List.dropWhile_cons_of_neg hp] at h
      simp only [List.head?_cons, Option.some.injEq] at h
      subst h
      simpa using hp

/-- A nonempty `dropWhile` keeps the last element of the list. -/
theorem getLast?_dropWhile {p : Char → Bool} {l : List Char} :
    ∀ c, (l.dropWhile p).getLast? = some c → l.getLast? = some c := by
  induction l with
  | nil => simp
  | cons a t ih =>
    intro c h
    by_cases hp : p a = true
    · rw [List.dropWhile_cons_of_pos hp] at h
      have h2 := ih c h
      cases t with
      | nil => simp at h2
      | cons b t' => rw [List.getLast?_cons_cons]; exact h2
    · rwa [List.dropWhile_cons_of_neg hp] at h

/-- The first character of a stripped list is not whitespace. -/
theorem head?_stripList {l : List Char} :
    ∀ c, (stripList l).head? = some c → isPyWs c = false := by
  intro c h
  rw [stripList, List.head?_reverse] at h
  have h2 := getLast?_dropWhile c h
  rw [List.getLast?_reverse] at h2
  exact head?_dropWhile c h2

/-- The last character of a stripped list is not whitespace. -/
theorem getLast?_stripList {l : List Char} :
    ∀ c, (stripList l).getLast? = some c → isPyWs c = false := by
  intro c h
  rw [stripList, List.getLast?_reverse] at h
  exact head?_dropWhile c h

/-- Strings produced by `str(x).lower().strip()` contain no uppercase
ASCII letter. -/
theorem pyNorm_lowercased (x : String) : isLowercased (pyNorm x) := by
  intro c hc
  have h1 : c ∈ lowerL x.data := mem_stripList hc
  rw [lowerL, List.mem_map] at h1
  obtain ⟨y, _, rfl⟩ := h1
  exact toLower_not_upper y

/-- Strings produced by `str(x).lower().strip()` have no surrounding
whitespace. -/
theorem pyNorm_trimmed (x : String) : isTrimmed (pyNorm x) :=
  ⟨fun c h => head?_stripList c h, fun c h => getLast?_stripList c h⟩

/-- Length and normalization bounds of every per-track value the parser
can build. -/
theorem tagResultOfData_bounds (d : Json) :
    (tagResultOfData d).tags.length ≤ 5 ∧ (tagResultOfData d).environments.length ≤ 3 ∧
    (∀ s ∈ (tagResultOfData d).tags, isLowercased s ∧ isTrimmed s) ∧
    (∀ s ∈ (tagResultOfData d).environments, isLowercased s ∧ isTrimmed s) := by
  cases d with
  | obj d =>
    refine ⟨?_, ?_, ?_, ?_⟩
    · show (match List.lookup tagsKey d with
        | some (Json.arr l) => (l.take 5).map (fun x => pyNorm (pyStr x))
        | some _ => []
        | none => []).length ≤ 5
      split
      · simp [List.length_take]
      · simp
      · simp
    · show (match List.lookup envsKey d with
        | some (Json.arr l) => (l.take 3).map (fun x => pyNorm (pyStr x))
        | some (Json.str s) => [pyNorm s]
        | some _ => []
        | none => []).length ≤ 3
      split
      · simp [List.length_take]
      · simp
      · simp
      · simp
    · intro s hs
      revert hs
      show s ∈ (match List.lookup tagsKey d with
        | some (Json.arr l) => (l.take 5).map (fun x => pyNorm (pyStr x))
        | some _ => []
        | none => []) → isLowercased s ∧ isTrimmed s
      split
      · intro hs
        rw [List.mem_map] at hs
        obtain ⟨x, _, rfl⟩ := hs
        exact ⟨pyNorm_lowercased _, pyNorm_trimmed _⟩
      · simp
      · simp
    · intro s hs
      revert hs
      show s ∈ (match List.lookup envsKey d with
        | some (Json.arr l) => (l.take 3).map (fun x => pyNorm (pyStr x))
        | some (Json.str s) => [pyNorm s]
        | some _ => []
        | none => []) → isLowercased s ∧ isTrimmed s
      split
      · intro hs
        rw [List.mem_map] at hs
        obtain ⟨x, _, rfl⟩ := hs
        exact ⟨pyNorm_lowercased _, pyNorm_trimmed _⟩
      · intro hs
        rw [List.mem_singleton] at hs
        subst hs
        exact ⟨pyNorm_lowercased _, pyNorm_trimmed _⟩
      · simp
      · simp
  | arr l =>
    refine ⟨by simp [tagResultOfData, List.length_take], by simp [tagResultOfData], ?_,
      by simp [tagResultOfData]⟩
    intro s hs
    simp only [tagResultOfData, List.mem_map] at hs
    obtain ⟨x, _, rfl⟩ := hs
    exact ⟨pyNorm_lowercased _, pyNorm_trimmed _⟩
  | null => exact ⟨by simp [tagResultOfData, emptyTagResult], by simp [tagResultOfData, emptyTagResult],
      by simp [tagResultOfData, emptyTagResult], by simp [tagResultOfData, emptyTagResult]⟩
  | bool b => exact ⟨by simp [tagResultOfData, emptyTagResult], by simp [tagResultOfData, emptyTagResult],
      by simp [tagResultOfData, emptyTagResult], by simp [tagResultOfData, emptyTagResult]⟩
  | num n => exact ⟨by simp [tagResultOfData, emptyTagResult], by simp [tagResultOfData, emptyTagResult],
      by simp [tagResultOfData, emptyTagResult], by simp [tagResultOfData, emptyTagResult]⟩
  | flt r => exact ⟨by simp [tagResultOfData, emptyTagResult], by simp [tagResultOfData, emptyTagResult],
      by simp [tagResultOfData, emptyTagResult], by simp [tagResultOfData, emptyTagResult]⟩
  | str s => exact ⟨by simp [tagResultOfData, emptyTagResult], by simp [tagResultOfData, emptyTagResult],
      by simp [tagResultOfData, emptyTagResult], by simp [tagResultOfData, emptyTagResult]⟩

/-! ### Concrete response texts used in counterexamples and witnesses -/

/-- The string key of track 1. -/
def key1 : String := "1"

/-- A normalized tag value. -/
def rockStr : String := "rock"

/-- A raw tag value needing case folding and trimming. -/
def rockRaw : String := "ROCK "

/-- A raw environment value needing case folding and trimming. -/
def chillRaw : String := " Chill "

/-- The normalized form of `chillRaw`. -/
def chillStr : String := "chill"

/-- `{"1": ["rock",]}` — valid JSON except for one trailing comma. -/
def respTrailing : String := "\x7b\"1\": [\"rock\",]\x7d"

/-- `{"1": ["rock"]}` — the same response without the trailing comma. -/
def respNoTrailing : String := "\x7b\"1\": [\"rock\"]\x7d"

/-- A code-fenced response: three backticks and `json`, the object
`{"1": ["Rock "]}` on its own line, then a closing fence line. -/
def respFenced : String := "```json\n\x7b\"1\": [\"Rock \"]\x7d\n```"

/-- The same response without the fences. -/
def respUnfenced : String := "\x7b\"1\": [\"Rock \"]\x7d"

/-- `{"1": {"tags": [7 values], "environments": [4 values],
"instruments": [4 values]}}` — more values than every maximum. -/
def respOverfull : String :=
  "\x7b\"1\": \x7b\"tags\": [\"A \", \"b\", \"c\", \"d\", \"e\", \"f\", \"g\"], \"environments\": [\"w\", \"x\", \"y\", \"z\"], \"instruments\": [\"p\", \"q\", \"r\", \"s\"]\x7d\x7d"

/-- `{"1": {"tags": "rock"}}` — a single string where the tags array is
expected. -/
def respTagsString : String := "\x7b\"1\": \x7b\"tags\": \"rock\"\x7d\x7d"

/-- `{"1": {"environments": " Chill ", "tags": "rock"}}` — single strings
in both array positions. -/
def respEnvString : String :=
  "\x7b\"1\": \x7b\"environments\": \" Chill \", \"tags\": \"rock\"\x7d\x7d"

/-- The decoded member dict of `respEnvString`. -/
def dEnvString : List (String × Json) :=
  [(envsKey, Json.str chillRaw), (tagsKey, Json.str rockStr)]

/-- The decoded top-level dict of `respEnvString`. -/
def fieldsEnvString : List (String × Json) :=
  [(key1, Json.obj dEnvString)]

/-- The string key of track 2. -/
def key2 : String := "2"

/-- `{"2": ["ROCK "]}` — a legacy bare-array entry for track 2 only. -/
def respLegacy : String := "\x7b\"2\": [\"ROCK \"]\x7d"

/-- The decoded top-level dict of `respLegacy`. -/
def fieldsLegacy : List (String × Json) :=
  [(key2, Json.arr [Json.str rockRaw])]

/-- Every entry of a parsed batch is the empty result or the processed
form of some response value. -/
theorem parseTagResponse_shape (response : String) (tracks : List TrackIn) :
    ∀ p ∈ parseTagResponse response tracks,
      p.2 = emptyTagResult ∨ ∃ d, p.2 = tagResultOfData d := by
  intro p hp
  unfold parseTagResponse at hp
  split at hp
  · rw [List.mem_map] at hp
    obtain ⟨t, _, rfl⟩ := hp
    cases hq : List.lookup (toString t.id) (by assumption : List (String × Json)) with
    | some data => right; exact ⟨data, rfl⟩
    | none => left; rfl
  · rw [emptyMapping, List.mem_map] at hp
    obtain ⟨t, _, rfl⟩ := hp
    left
    rfl
  · rw [emptyMapping, List.mem_map] at hp
    obtain ⟨t, _, rfl⟩ := hp
    left
    rfl

/-- The capability that always fails with `err429`. -/
def cap429 : Nat → Except String String := fun _ => Except.error err429

/-- Witness for the amended C2 at a concrete capability: 5 calls, sleeps
2, 4, 8, 16, empty mapping. -/
theorem c2_witness :
    generateBatch cap429 [⟨1⟩] = ⟨emptyMapping [⟨1⟩], 5, [2, 4, 8, 16]⟩ := by
  have ht : isTransient err429 = true := by decide
  have h := c2_retry_exhaustion cap429 [⟨1⟩] (fun _ => err429)
    (fun a _ => rfl) (fun a _ => ht)
  rw [h]
  have he : extractRetryDelay err429 = none := by
    rw [extractRetryDelay,
      show searchWith tryStructured err429.data = none from rfl,
      show searchWith tryHeader err429.data = none from rfl]
  simp [he, List.range_succ]
  norm_num

/-! ### C5: fence stripping, no trailing-comma repair -/

/-- Counterexample to C5 as stated: `respTrailing` is valid JSON except
for one trailing comma before a closing bracket (removing the comma
parses, first conjunct), yet `_parse_tag_response` performs no repair:
the parse fails (second conjunct) and the batch degrades to the empty
result instead of being "parsed successfully" (third conjunct). -/
theorem c5_counterexample :
    loadsL (stripList respNoTrailing.data) = some (Json.obj [(key1, Json.arr [Json.str rockStr])]) ∧
    loadsL (stripFences (stripList respTrailing.data)) = none ∧
    parseTagResponse respTrailing [⟨1⟩] = [(1, emptyTagResult)] :=
  ⟨rfl, rfl, rfl⟩

/-- C5 (amended).  Before parsing, `_parse_tag_response` strips
surrounding whitespace and code-fence lines — a fenced response parses
exactly like its unfenced body — but it performs no trailing-comma
repair: a response that is valid JSON except for a trailing comma
degrades to the empty result for every track of the batch. -/
theorem c5_fence_no_repair (tracks : List TrackIn) :
    parseTagResponse respFenced tracks = parseTagResponse respUnfenced tracks ∧
    parseTagResponse respTrailing tracks = emptyMapping tracks :=
  ⟨rfl, rfl⟩

/-! ### C6: truncation and normalization -/

/-- The value `_parse_tag_response` builds from `respOverfull`: 5 tags,
3 environments, and no instrument data at all. -/
def overfullResult : TagResult :=
  ⟨["a", "b", "c", "d", "e"], ["w", "x", "y"], Json.null⟩

/-- Counterexample to C6 as stated: for a response supplying 7 tags, 4
environments and 4 instruments, the claim requires a result of 5 tags, 3
environments and 3 instruments; the code truncates tags to 5 and
environments to 3, but carries no instruments array at all — it only
reads a `primary_instrument` key, absent here, so the instrument entry
is `None` rather than a 3-element truncation. -/
theorem c6_counterexample :
    parseTagResponse respOverfull [⟨1⟩] = [(1, overfullResult)] ∧
    overfullResult.tags.length = 5 ∧
    overfullResult.environments.length = 3 ∧
    overfullResult.primary_instrument = Json.null :=
  ⟨rfl, rfl, rfl, rfl⟩

/-- C6 (amended).  Every per-track result has at most 5 tags and at most
3 environments, and every retained tag and environment string is
case-folded to lowercase and trimmed of surrounding whitespace; the
response's `instruments` array is not retained (only a single
`primary_instrument` value is read, as the counterexample shows). -/
theorem c6_truncation_normalization (response : String) (tracks : List TrackIn) :
    ∀ p ∈ parseTagResponse response tracks,
      p.2.tags.length ≤ 5 ∧ p.2.environments.length ≤ 3 ∧
      (∀ s ∈ p.2.tags, isLowercased s ∧ isTrimmed s) ∧
      (∀ s ∈ p.2.environments, isLowercased s ∧ isTrimmed s) := by
  intro p hp
  rcases parseTagResponse_shape response tracks p hp with h | ⟨d, h⟩
  · rw [h]
    refine ⟨by simp [emptyTagResult], by simp [emptyTagResult], by simp [emptyTagResult],
      by simp [emptyTagResult]⟩
  · rw [h]
    exact tagResultOfData_bounds d

/-- Witness for the amended C6 at the concrete overfull response. -/
theorem c6_witness :
    overfullResult.tags.length ≤ 5 ∧ overfullResult.environments.length ≤ 3 := by
  have h := c6_truncation_normalization respOverfull [⟨1⟩] (1, overfullResult)
    (by rw [show parseTagResponse respOverfull [⟨1⟩] = [(1, overfullResult)] from rfl]
        exact List.mem_singleton.mpr rfl)
  exact ⟨h.1, h.2.1⟩

/-! ### C7: a single string where an array is expected -/

/-- Counterexample to C7 as stated: in `respTagsString` the `tags` field
of track 1 is the single string `"rock"`; the claim requires the
one-element array `["rock"]`, but the code's `isinstance(tags, list)`
test fails and the tags default to `[]`. -/
theorem c7_counterexample :
    parseTagResponse respTagsString [⟨1⟩] = [(1, emptyTagResult)] ∧
    emptyTagResult.tags = [] ∧
    ([] : List String) ≠ [rockStr] :=
  ⟨rfl, rfl, by decide⟩

/-- C7 (amended).  Only for the `environments` field is a single string
treated as a one-element array (case-folded and trimmed); a single
string supplied as `tags` yields the empty list.  The entry the batch
receives for a track whose response value is the object `d` is
`tagResultOfData (Json.obj d)`. -/
theorem c7_string_fields (response : String) (tracks : List TrackIn)
    (fields : List (String × Json))
    (hl : loadsL (stripFences (stripList response.data)) = some (Json.obj fields))
    (t : TrackIn) (ht : t ∈ tracks) (d : List (String × Json))
    (hd : List.lookup (toString t.id) fields = some (Json.obj d)) :
    (t.id, tagResultOfData (Json.obj d)) ∈ parseTagResponse response tracks ∧
    (∀ s, List.lookup envsKey d = some (Json.str s) →
      (tagResultOfData (Json.obj d)).environments = [pyNorm s]) ∧
    (∀ s, List.lookup tagsKey d = some (Json.str s) →
      (tagResultOfData (Json.obj d)).tags = []) := by
  refine ⟨?_, ?_, ?_⟩
  · unfold parseTagResponse
    rw [hl]
    have hm := List.mem_map_of_mem (fun t : TrackIn =>
      match List.lookup (toString t.id) fields with
      | some data => (t.id, tagResultOfData data)
      | none => (t.id, emptyTagResult)) ht
    simpa [hd] using hm
  · intro s hs
    show (match List.lookup envsKey d with
      | some (Json.arr l) => (l.take 3).map (fun x => pyNorm (pyStr x))
      | some (Json.str s) => [pyNorm s]
      | some _ => []
      | none => []) = [pyNorm s]
    rw [hs]
  · intro s hs
    show (match List.lookup tagsKey d with
      | some (Json.arr l) => (l.take 5).map (fun x => pyNorm (pyStr x))
      | some _ => []
      | none => []) = []
    rw [hs]

/-- Witness for the amended C7 at the concrete response
`respEnvString`. -/
theorem c7_witness :
    (tagResultOfData (Json.obj dEnvString)).environments = [chillStr] ∧
    (tagResultOfData (Json.obj dEnvString)).tags = [] ∧
    pyNorm chillRaw = chillStr := by
  have h := c7_string_fields respEnvString [⟨1⟩] fieldsEnvString rfl ⟨1⟩
    (List.mem_singleton.mpr rfl) dEnvString rfl
  exact ⟨h.2.1 chillRaw rfl, h.2.2 rockStr rfl, rfl⟩

/-! ### C10: the result's key set is exactly the input ids -/

/-- C10.  The mapping returned by `_parse_tag_response` has exactly the
input tracks' ids as its keys, in order (first conjunct); a track whose
id is absent from the parsed object receives the empty result (second
conjunct); a track whose value is a legacy bare array receives it as the
tags field, truncated and normalized (third conjunct).  Response keys
that do not correspond to an input track never enter the result, since
every entry's key is an input id. -/
theorem c10_keyset (response : String) (tracks : List TrackIn) :
    (parseTagResponse response tracks).map Prod.fst = tracks.map TrackIn.id ∧
    (∀ fields, loadsL (stripFences (stripList response.data)) = some (Json.obj fields) →
      ∀ t ∈ tracks, List.lookup (toString t.id) fields = none →
        (t.id, emptyTagResult) ∈ parseTagResponse response tracks) ∧
    (∀ fields, loadsL (stripFences (stripList response.data)) = some (Json.obj fields) →
      ∀ t ∈ tracks, ∀ l, List.lookup (toString t.id) fields = some (Json.arr l) →
        (t.id, ⟨(l.take 5).map (fun x => pyNorm (pyStr x)), [], Json.null⟩) ∈
          parseTagResponse response tracks) := by
  refine ⟨?_, ?_, ?_⟩
  · unfold parseTagResponse
    split
    · rename_i fields heq
      induction tracks with
      | nil => rfl
      | cons t ts ih =>
        simp only [List.map_cons, ih]
        congr 1
        show (match List.lookup (toString t.id) fields with
          | some data => (t.id, tagResultOfData data)
          | none => (t.id, emptyTagResult)).1 = t.id
        cases List.lookup (toString t.id) fields <;> rfl
    · rw [emptyMapping, List.map_map]
      rfl
    · rw [emptyMapping, List.map_map]
      rfl
  · intro fields hl t ht hnone
    unfold parseTagResponse
    rw [hl]
    have hm := List.mem_map_of_mem (fun t : TrackIn =>
      match List.lookup (toString t.id) fields with
      | some data => (t.id, tagResultOfData data)
      | none => (t.id, emptyTagResult)) ht
    simpa [hnone] using hm
  · intro fields hl t ht l harr
    unfold parseTagResponse
    rw [hl]
    have hm := List.mem_map_of_mem (fun t : TrackIn =>
      match List.lookup (toString t.id) fields with
      | some data => (t.id, tagResultOfData data)
      | none => (t.id, emptyTagResult)) ht
    simpa [harr, tagResultOfData] using hm

/-- Witness for C10 at a concrete batch and response: track 1 is absent
from the response and defaults to empty, track 2 carries a legacy bare
array that becomes its normalized tags. -/
theorem c10_witness :
    (parseTagResponse respLegacy [⟨1⟩, ⟨2⟩]).map Prod.fst = [1, 2] ∧
    ((1 : Nat), emptyTagResult) ∈ parseTagResponse respLegacy [⟨1⟩, ⟨2⟩] ∧
    ((2 : Nat), (⟨[rockStr], [], Json.null⟩ : TagResult)) ∈
      parseTagResponse respLegacy [⟨1⟩, ⟨2⟩] := by
  have h := c10_keyset respLegacy [⟨1⟩, ⟨2⟩]
  refine ⟨by rw [h.1]; rfl, ?_, ?_⟩
  · exact h.2.1 fieldsLegacy rfl ⟨1⟩ (by simp) rfl
  · exact h.2.2 fieldsLegacy rfl ⟨2⟩ (by simp) [Json.str rockRaw] rfl

/-! ### Upsert infrastructure lemmas -/

/-- When no stored row matches the key, the in-place update finds
nothing. -/
theorem upsertGo_eq_none (t : TrackRow) :
    ∀ rows, (∀ p ∈ rows, (p.2.plex_key == t.plex_key) = false) → upsertGo rows t = none := by
  intro rows
  induction rows with
  | nil => intro _; rfl
  | cons q rest ih =>
    obtain ⟨j, r⟩ := q
    intro hall
    rw [upsertGo, if_neg (by simpa using hall (j, r) (List.mem_cons_self _ _)),
      ih (fun p hp => hall p (List.mem_cons_of_mem _ hp))]

/-- The in-place update acts exactly on the first matching row: it keeps
its position and internal id and merges the incoming record into it. -/
theorem upsertGo_append_found (t : TrackRow) :
    ∀ pre (i : Nat) (r : TrackRow) post,
      (∀ p ∈ pre, (p.2.plex_key == t.plex_key) = false) →
      (r.plex_key == t.plex_key) = true →
      upsertGo (pre ++ (i, r) :: post) t = some (i, pre ++ (i, mergeTrack r t) :: post) := by
  intro pre
  induction pre with
  | nil =>
    intro i r post _ hr
    rw [List.nil_append, upsertGo, if_pos hr]
    rfl
  | cons q pre' ih =>
    obtain ⟨j, q'⟩ := q
    intro i r post hpre hr
    have hq : (q'.plex_key == t.plex_key) = false := hpre (j, q') (List.mem_cons_self _ _)
    rw [List.cons_append, upsertGo, if_neg (by simp [hq]),
      ih i r post (fun p hp => hpre p (List.mem_cons_of_mem _ hp)) hr]
    rfl

/-- A successful `find?` by key decomposes the row list around the first
match, and the upsert merges exactly there. -/
theorem upsertGo_of_find (t : TrackRow) :
    ∀ rows (i : Nat) (r0 : TrackRow),
      rows.find? (fun p => p.2.plex_key == t.plex_key) = some (i, r0) →
      ∃ pre post, rows = pre ++ (i, r0) :: post ∧
        (∀ p ∈ pre, (p.2.plex_key == t.plex_key) = false) ∧
        upsertGo rows t = some (i, pre ++ (i, mergeTrack r0 t) :: post) := by
  intro rows
  induction rows with
  | nil => intro i r0 h; simp at h
  | cons q rest ih =>
    obtain ⟨j, r⟩ := q
    intro i r0 h
    by_cases hk : (r.plex_key == t.plex_key) = true
    · have hfc : List.find? (fun p => p.2.plex_key == t.plex_key) ((j, r) :: rest) =
          some (j, r) :=
        List.find?_cons_of_pos rest hk
      rw [hfc] at h
      simp only [Option.some.injEq, Prod.mk.injEq] at h
      obtain ⟨rfl, rfl⟩ := h
      refine ⟨[], rest, by simp, by simp, ?_⟩
      rw [upsertGo, if_pos hk]
      rfl
    · have hfc : List.find? (fun p => p.2.plex_key == t.plex_key) ((j, r) :: rest) =
          List.find? (fun p => p.2.plex_key == t.plex_key) rest :=
        List.find?_cons_of_neg rest (by simpa using hk)
      rw [hfc] at h
      obtain ⟨pre, post, e1, hpre, hgo⟩ := ih i r0 h
      refine ⟨(j, r) :: pre, post, by rw [List.cons_append, e1], ?_, ?_⟩
      · intro p hp
        rcases List.mem_cons.mp hp with rfl | hp'
        · simpa using hk
        · exact hpre p hp'
      · rw [upsertGo, if_neg hk, hgo]
        rfl

/-- Lookup by internal id in a row list whose ids are distinct finds the
middle row. -/
theorem getById_middle (pre : List (Nat × TrackRow)) (i : Nat) (m : TrackRow)
    (post : List (Nat × TrackRow))
    (hnodup : ((pre ++ (i, m) :: post).map Prod.fst).Nodup) :
    getById (pre ++ (i, m) :: post) i = some m := by
  rw [getById, List.find?_append]
  have hpre : pre.find? (fun p => p.1 == i) = none := by
    rw [List.find?_eq_none]
    intro p hp
    simp only [beq_iff_eq]
    intro hpi
    rw [List.map_append, List.nodup_append] at hnodup
    obtain ⟨_, _, hdisj⟩ := hnodup
    exact hdisj (hpi ▸ List.mem_map_of_mem Prod.fst hp) (by simp)
  rw [hpre]
  simp

/-- Lookup by internal id of a freshly appended row whose id is larger
than every stored id. -/
theorem getById_append_new (rows : List (Nat × TrackRow)) (nid : Nat) (t : TrackRow)
    (hb : ∀ p ∈ rows, p.1 < nid) :
    getById (rows ++ [(nid, t)]) nid = some t := by
  rw [getById, List.find?_append]
  have hpre : rows.find? (fun p => p.1 == nid) = none := by
    rw [List.find?_eq_none]
    intro p hp
    simp only [beq_iff_eq]
    exact Nat.ne_of_lt (hb p hp)
  rw [hpre]
  simp

/-! ### C3: sticky enrichment -/

/-- C3.  Upserting over a stored track (found by external key, with
non-empty enrichment values) a record carrying null enrichment values
returns the stored track's internal id, leaves the three stored
enrichment values unchanged, and overwrites every other field with the
incoming record's value. -/
theorem c3_sticky_enrichment (s : Store) (i : Nat) (r0 t : TrackRow)
    (hfind : s.rows.find? (fun p => p.2.plex_key == t.plex_key) = some (i, r0))
    (hnodup : (s.rows.map Prod.fst).Nodup)
    (_htags : r0.tags ≠ none ∧ r0.tags ≠ some "")
    (_henvs : r0.environments ≠ none ∧ r0.environments ≠ some "")
    (_hinst : r0.instruments ≠ none ∧ r0.instruments ≠ some "")
    (hin : t.tags = none ∧ t.environments = none ∧ t.instruments = none) :
    (upsertTrack s t).1 = i ∧
    Option.map TrackRow.tags (getById (upsertTrack s t).2.rows i) = some r0.tags ∧
    Option.map TrackRow.environments (getById (upsertTrack s t).2.rows i) =
      some r0.environments ∧
    Option.map TrackRow.instruments (getById (upsertTrack s t).2.rows i) =
      some r0.instruments ∧
    Option.map TrackRow.title (getById (upsertTrack s t).2.rows i) = some t.title ∧
    Option.map TrackRow.plex_key (getById (upsertTrack s t).2.rows i) = some t.plex_key ∧
    Option.map TrackRow.artist_id (getById (upsertTrack s t).2.rows i) = some t.artist_id ∧
    Option.map TrackRow.album_id (getById (upsertTrack s t).2.rows i) = some t.album_id ∧
    Option.map TrackRow.duration_ms (getById (upsertTrack s t).2.rows i) =
      some t.duration_ms ∧
    Option.map TrackRow.genre (getById (upsertTrack s t).2.rows i) = some t.genre ∧
    Option.map TrackRow.year (getById (upsertTrack s t).2.rows i) = some t.year ∧
    Option.map TrackRow.rating (getById (upsertTrack s t).2.rows i) = some t.rating ∧
    Option.map TrackRow.play_count (getById (upsertTrack s t).2.rows i) =
      some t.play_count := by
  obtain ⟨pre, post, he1, hpre, hgo⟩ := upsertGo_of_find t s.rows i r0 hfind
  have e1 : upsertTrack s t = (i, ⟨pre ++ (i, mergeTrack r0 t) :: post, s.nextId⟩) := by
    rw [upsertTrack, hgo]
  have hnodup2 : ((pre ++ (i, mergeTrack r0 t) :: post).map Prod.fst).Nodup := by
    have hsame : (pre ++ (i, mergeTrack r0 t) :: post).map Prod.fst =
        s.rows.map Prod.fst := by
      rw [he1]
      simp
    rw [hsame]
    exact hnodup
  have hget := getById_middle pre i (mergeTrack r0 t) post hnodup2
  simp only [e1]
  rw [hget]
  simp [mergeTrack, keepIfEmpty, hin.1, hin.2.1, hin.2.2]

/-! ### C4: stable internal id across upserts -/

/-- C4.  Upserting twice with the same external key and different field
values returns the same internal id both times, and the stored record
after the second upsert carries the second record's values for every
non-enrichment field. -/
theorem c4_stable_id (s : Store) (t1 t2 : TrackRow)
    (hkey : t1.plex_key = t2.plex_key) (_hneq : t1 ≠ t2)
    (hnodup : (s.rows.map Prod.fst).Nodup)
    (hbound : ∀ p ∈ s.rows, p.1 < s.nextId) :
    (upsertTrack s t1).1 = (upsertTrack (upsertTrack s t1).2 t2).1 ∧
    Option.map TrackRow.title
      (getById (upsertTrack (upsertTrack s t1).2 t2).2.rows (upsertTrack s t1).1) =
      some t2.title ∧
    Option.map TrackRow.plex_key
      (getById (upsertTrack (upsertTrack s t1).2 t2).2.rows (upsertTrack s t1).1) =
      some t2.plex_key ∧
    Option.map TrackRow.artist_id
      (getById (upsertTrack (upsertTrack s t1).2 t2).2.rows (upsertTrack s t1).1) =
      some t2.artist_id ∧
    Option.map TrackRow.album_id
      (getById (upsertTrack (upsertTrack s t1).2 t2).2.rows (upsertTrack s t1).1) =
      some t2.album_id ∧
    Option.map TrackRow.duration_ms
      (getById (upsertTrack (upsertTrack s t1).2 t2).2.rows (upsertTrack s t1).1) =
      some t2.duration_ms ∧
    Option.map TrackRow.genre
      (getById (upsertTrack (upsertTrack s t1).2 t2).2.rows (upsertTrack s t1).1) =
      some t2.genre ∧
    Option.map TrackRow.year
      (getById (upsertTrack (upsertTrack s t1).2 t2).2.rows (upsertTrack s t1).1) =
      some t2.year ∧
    Option.map TrackRow.rating
      (getById (upsertTrack (upsertTrack s t1).2 t2).2.rows (upsertTrack s t1).1) =
      some t2.rating ∧
    Option.map TrackRow.play_count
      (getById (upsertTrack (upsertTrack s t1).2 t2).2.rows (upsertTrack s t1).1) =
      some t2.play_count := by
  rcases hf : s.rows.find? (fun p => p.2.plex_key == t1.plex_key) with _ | ⟨i, r0⟩
  · -- the key is absent: a fresh row is inserted, then updated in place
    have hall : ∀ p ∈ s.rows, (p.2.plex_key == t1.plex_key) = false := by
      intro p hp
      simpa using List.find?_eq_none.mp hf p hp
    have hgo1 : upsertGo s.rows t1 = none := upsertGo_eq_none t1 s.rows hall
    have e1 : upsertTrack s t1 = (s.nextId, ⟨s.rows ++ [(s.nextId, t1)], s.nextId + 1⟩) := by
      rw [upsertTrack, hgo1]
    have hpre2 : ∀ p ∈ s.rows, (p.2.plex_key == t2.plex_key) = false := by
      intro p hp
      rw [← hkey]
      exact hall p hp
    have hgo2 : upsertGo (s.rows ++ [(s.nextId, t1)]) t2 =
        some (s.nextId, s.rows ++ [(s.nextId, mergeTrack t1 t2)]) := by
      simpa using upsertGo_append_found t2 s.rows s.nextId t1 [] hpre2 (by simp [hkey])
    have e2 : upsertTrack ⟨s.rows ++ [(s.nextId, t1)], s.nextId + 1⟩ t2 =
        (s.nextId, ⟨s.rows ++ [(s.nextId, mergeTrack t1 t2)], s.nextId + 1⟩) := by
      rw [upsertTrack, hgo2]
    have hget := getById_append_new s.rows s.nextId (mergeTrack t1 t2) hbound
    simp only [e1, e2]
    rw [hget]
    simp [mergeTrack]
  · -- the key is present: both upserts merge into the same row
    obtain ⟨pre, post, he1, hpre, hgo1⟩ := upsertGo_of_find t1 s.rows i r0 hf
    have e1 : upsertTrack s t1 = (i, ⟨pre ++ (i, mergeTrack r0 t1) :: post, s.nextId⟩) := by
      rw [upsertTrack, hgo1]
    have hpre2 : ∀ p ∈ pre, (p.2.plex_key == t2.plex_key) = false := by
      intro p hp
      rw [← hkey]
      exact hpre p hp
    have hm : ((mergeTrack r0 t1).plex_key == t2.plex_key) = true := by
      simp [show (mergeTrack r0 t1).plex_key = t1.plex_key from rfl, hkey]
    have hgo2 : upsertGo (pre ++ (i, mergeTrack r0 t1) :: post) t2 =
        some (i, pre ++ (i, mergeTrack (mergeTrack r0 t1) t2) :: post) :=
      upsertGo_append_found t2 pre i (mergeTrack r0 t1) post hpre2 hm
    have e2 : upsertTrack ⟨pre ++ (i, mergeTrack r0 t1) :: post, s.nextId⟩ t2 =
        (i, ⟨pre ++ (i, mergeTrack (mergeTrack r0 t1) t2) :: post, s.nextId⟩) := by
      rw [upsertTrack, hgo2]
    have hnodup2 :
        ((pre ++ (i, mergeTrack (mergeTrack r0 t1) t2) :: post).map Prod.fst).Nodup := by
      have hsame : (pre ++ (i, mergeTrack (mergeTrack r0 t1) t2) :: post).map Prod.fst =
          s.rows.map Prod.fst := by
        rw [he1]
        simp
      rw [hsame]
      exact hnodup
    have hget := getById_middle pre i (mergeTrack (mergeTrack r0 t1) t2) post hnodup2
    simp only [e1, e2]
    rw [hget]
    simp [mergeTrack]

/-! ### C8: the change predicate -/

/-- C8.  `needs_update(existing, incoming)` is true iff at least one of
rating, play count, genre, year, duration, or title differ; in
particular it is false on identical records. -/
theorem c8_needs_update (e i : TrackRow) :
    (trackNeedsUpdate e i = true ↔
      (e.rating ≠ i.rating ∨ e.play_count ≠ i.play_count ∨ e.genre ≠ i.genre ∨
        e.year ≠ i.year ∨ e.duration_ms ≠ i.duration_ms ∨ e.title ≠ i.title)) ∧
    trackNeedsUpdate e e = false := by
  constructor
  · simp [trackNeedsUpdate, or_assoc]
  · simp [trackNeedsUpdate]

/-! ### C9: playlist deduplication -/

/-- The dedup pass returns a subsequence of its input: dropped entries
never disturb the positions of the kept ones. -/
theorem dedupGo_sublist (seen : List (String × String)) (l : List CandidateTrack) :
    (dedupGo seen l).Sublist l := by
  induction l generalizing seen with
  | nil => simp [dedupGo]
  | cons c cs ih =>
    rw [dedupGo]
    by_cases h : normPair c ∈ seen
    · rw [if_pos h]
      exact (ih seen).cons c
    · rw [if_neg h]
      exact (ih _).cons₂ c

/-- Entries surviving the dedup pass never carry an already-seen
normalized pair. -/
theorem mem_dedupGo_not_seen (seen : List (String × String)) (l : List CandidateTrack) :
    ∀ x ∈ dedupGo seen l, normPair x ∉ seen := by
  induction l generalizing seen with
  | nil => simp [dedupGo]
  | cons c cs ih =>
    intro x hx
    rw [dedupGo] at hx
    by_cases h : normPair c ∈ seen
    · rw [if_pos h] at hx
      exact ih seen x hx
    · rw [if_neg h] at hx
      rcases List.mem_cons.mp hx with rfl | hx'
      · exact h
      · intro hseen
        exact ih _ x hx' (List.mem_cons_of_mem _ hseen)

/-- The dedup pass yields pairwise distinct normalized pairs. -/
theorem dedupGo_pairwise (seen : List (String × String)) (l : List CandidateTrack) :
    (dedupGo seen l).Pairwise (fun a b => normPair a ≠ normPair b) := by
  induction l generalizing seen with
  | nil => simp [dedupGo]
  | cons c cs ih =>
    rw [dedupGo]
    by_cases h : normPair c ∈ seen
    · rw [if_pos h]
      exact ih seen
    · rw [if_neg h]
      refine List.Pairwise.cons ?_ (ih _)
      intro b hb heq
      exact mem_dedupGo_not_seen _ _ b hb (heq ▸ List.mem_cons_self _ _)

/-- The first candidate bearing a given normalized pair is kept. -/
theorem dedupGo_keeps_first (c : CandidateTrack) :
    ∀ pre post (seen : List (String × String)),
      (∀ x ∈ pre, normPair x ≠ normPair c) → normPair c ∉ seen →
      c ∈ dedupGo seen (pre ++ c :: post) := by
  intro pre
  induction pre with
  | nil =>
    intro post seen _ hseen
    rw [List.nil_append, dedupGo, if_neg hseen]
    exact List.mem_cons_self _ _
  | cons p pre' ih =>
    intro post seen hpre hseen
    rw [List.cons_append, dedupGo]
    by_cases h : normPair p ∈ seen
    · rw [if_pos h]
      exact ih post seen (fun x hx => hpre x (List.mem_cons_of_mem _ hx)) hseen
    · rw [if_neg h]
      refine List.mem_cons_of_mem _ ?_
      refine ih post _ (fun x hx => hpre x (List.mem_cons_of_mem _ hx)) ?_
      intro hmem
      rcases List.mem_cons.mp hmem with heq | hmem'
      · exact hpre p (List.mem_cons_self _ _) heq.symm
      · exact hseen hmem'

/-- Every input pair is represented in the output (by its first
occurrence). -/
theorem dedupGo_covers (l : List CandidateTrack) :
    ∀ seen : List (String × String), ∀ c ∈ l,
      normPair c ∈ seen ∨ ∃ d ∈ dedupGo seen l, normPair d = normPair c := by
  induction l with
  | nil => simp
  | cons a cs ih =>
    intro seen c hc
    rw [dedupGo]
    by_cases h : normPair a ∈ seen
    · rw [if_pos h]
      rcases List.mem_cons.mp hc with rfl | hc'
      · left
        exact h
      · exact ih seen c hc'
    · rw [if_neg h]
      rcases List.mem_cons.mp hc with rfl | hc'
      · right
        exact ⟨c, List.mem_cons_self _ _, rfl⟩
      · rcases ih (normPair a :: seen) c hc' with hmem | ⟨d, hd, hde⟩
        · rcases List.mem_cons.mp hmem with heq | hseen'
          · right
            exact ⟨a, List.mem_cons_self _ _, heq.symm⟩
          · left
            exact hseen'
        · right
          exact ⟨d, List.mem_cons_of_mem _ hd, hde⟩

/-- C9.  In the deduplicated playlist no two entries share a normalized
(title, artist) pair; the result is a subsequence of the candidate list
(so the first occurrences keep their relative positions and later
duplicates are dropped); every candidate's pair is represented; and any
candidate with no earlier equal pair — a first occurrence — is kept. -/
theorem c9_dedup (l : List CandidateTrack) :
    (dedupCandidates l).Pairwise (fun a b => normPair a ≠ normPair b) ∧
    (dedupCandidates l).Sublist l ∧
    (∀ c ∈ l, ∃ d ∈ dedupCandidates l, normPair d = normPair c) ∧
    (∀ pre c post, l = pre ++ c :: post → (∀ x ∈ pre, normPair x ≠ normPair c) →
      c ∈ dedupCandidates l) := by
  refine ⟨dedupGo_pairwise [] l, dedupGo_sublist [] l, ?_, ?_⟩
  · intro c hc
    rcases dedupGo_covers l [] c hc with h | h
    · simp at h
    · exact h
  · intro pre c post hl hpre
    rw [hl]
    show c ∈ dedupGo [] (pre ++ c :: post)
    exact dedupGo_keeps_first c pre post [] hpre (by simp)

/-! ### Concrete stores and candidates for the witnesses -/

/-- External key used by the store witnesses. -/
def keyW : String := "/library/metadata/3"

/-- Original title. -/
def titleOld : String := "Tagged Track"

/-- Updated title. -/
def titleNew : String := "Tagged Track Updated"

/-- Stored tags value. -/
def tagsChill : String := "chill,relaxing"

/-- Stored environments value. -/
def envsStudy : String := "study,focus"

/-- Stored instruments value. -/
def instrPiano : String := "piano"

/-- Stored genre value. -/
def genreJazz : String := "Jazz"

/-- A stored track with non-empty enrichment fields. -/
def rowTagged : TrackRow :=
  { plex_key := keyW, title := titleOld, artist_id := 1, album_id := 1,
    duration_ms := 180000, genre := some genreJazz, year := some 1959,
    rating := none, play_count := 10, tags := some tagsChill,
    environments := some envsStudy, instruments := some instrPiano }

/-- An incoming sync record with null enrichment and a new title. -/
def rowUpdate : TrackRow :=
  { plex_key := keyW, title := titleNew, artist_id := 1, album_id := 1,
    duration_ms := 185000, genre := some genreJazz, year := some 1959,
    rating := none, play_count := 11, tags := none,
    environments := none, instruments := none }

/-- A store holding `rowTagged` under internal id 7. -/
def storeW : Store := ⟨[(7, rowTagged)], 8⟩

/-- Witness for C3: upserting `rowUpdate` over `rowTagged` keeps id 7,
keeps the stored tags, and updates the title. -/
theorem c3_witness :
    (upsertTrack storeW rowUpdate).1 = 7 ∧
    Option.map TrackRow.tags (getById (upsertTrack storeW rowUpdate).2.rows 7) =
      some (some tagsChill) ∧
    Option.map TrackRow.environments (getById (upsertTrack storeW rowUpdate).2.rows 7) =
      some (some envsStudy) ∧
    Option.map TrackRow.title (getById (upsertTrack storeW rowUpdate).2.rows 7) =
      some titleNew := by
  have h := c3_sticky_enrichment storeW 7 rowTagged rowUpdate rfl (by decide)
    (by decide) (by decide) (by decide) ⟨rfl, rfl, rfl⟩
  exact ⟨h.1, h.2.1, h.2.2.1, h.2.2.2.2.1⟩

/-- The first version of a track, inserted into an empty store. -/
def rowV1 : TrackRow :=
  { plex_key := keyW, title := titleOld, artist_id := 1, album_id := 1,
    duration_ms := 180000, genre := none, year := none, rating := none,
    play_count := 0, tags := none, environments := none, instruments := none }

/-- A second version with a different title and duration. -/
def rowV2 : TrackRow :=
  { plex_key := keyW, title := titleNew, artist_id := 1, album_id := 1,
    duration_ms := 190000, genre := none, year := none, rating := none,
    play_count := 0, tags := none, environments := none, instruments := none }

/-- The empty store. -/
def storeE : Store := ⟨[], 1⟩

/-- Witness for C4: both upserts return the same id and the stored title
is the second value. -/
theorem c4_witness :
    (upsertTrack storeE rowV1).1 = (upsertTrack (upsertTrack storeE rowV1).2 rowV2).1 ∧
    Option.map TrackRow.title
      (getById (upsertTrack (upsertTrack storeE rowV1).2 rowV2).2.rows
        (upsertTrack storeE rowV1).1) = some titleNew ∧
    Option.map TrackRow.duration_ms
      (getById (upsertTrack (upsertTrack storeE rowV1).2 rowV2).2.rows
        (upsertTrack storeE rowV1).1) = some rowV2.duration_ms := by
  have h := c4_stable_id storeE rowV1 rowV2 rfl (by decide) (by decide)
    (by intro p hp; simp [storeE] at hp)
  exact ⟨h.1, h.2.1, h.2.2.2.2.2.1⟩

/-- Title of the duplicated recording, first release. -/
def dupTitleA : String := "Track 1"

/-- Title of the duplicated recording, second release (normalizes to the
same pair). -/
def dupTitleB : String := "track 1 "

/-- Artist name, first spelling. -/
def dupArtistA : String := "Miles Davis"

/-- Artist name, second spelling (normalizes equal). -/
def dupArtistB : String := " miles davis"

/-- The first candidate of the duplicated pair. -/
def wDup1 : CandidateTrack := ⟨1, dupTitleA, dupArtistA⟩

/-- A distinct track id carrying the same normalized pair. -/
def wDup2 : CandidateTrack := ⟨2, dupTitleB, dupArtistB⟩

/-- Witness for C9: two distinct ids with one normalized pair — the
first is kept, the result is a subsequence, and it evaluates to just the
first occurrence. -/
theorem c9_witness :
    wDup1 ∈ dedupCandidates [wDup1, wDup2] ∧
    (dedupCandidates [wDup1, wDup2]).Sublist [wDup1, wDup2] ∧
    dedupCandidates [wDup1, wDup2] = [wDup1] ∧
    normPair wDup1 = normPair wDup2 ∧ wDup1.id ≠ wDup2.id := by
  have h := c9_dedup [wDup1, wDup2]
  refine ⟨?_, h.2.1, rfl, rfl, by decide⟩
  exact h.2.2.2 [] wDup1 [wDup2] rfl (by simp)

end PlexMix
